import Mathlib

set_option maxHeartbeats 1000000

/-!
Shallow embedding of the rootweb repository (github.com/hoon-x/rootweb):
the IPC shutdown relay (package ipc), the websocket/pty terminal bridge
(handler.TerminalWS) and the task supervisor (package task).  Each
definition transcribes the corresponding Go source; theorems settle the
specification claims about them.
-/

/-! ## ShutdownRelay (package ipc) -/

/-- Event type carried on the IPC channel (source: ipc.EvtType; the only
constructor is the Shutdown event). -/
inductive EvtType where
| Shutdown : EvtType
deriving DecidableEq, Repr

/-- State of the IPC manager (source: ipc.IpcManager): the contents of the
buffered channel and the enabled flag.  The channel is created with
capacity 16 in the package init. -/
structure IpcManager where
  ipcChan : List EvtType
  isChanEnabled : Bool
deriving DecidableEq, Repr

/-- Capacity of the buffered channel (source: make(chan EvtType, 16)). -/
def ipcChanCap : Nat := 16

/-- Initial IPC state (source: ipc package init). -/
def ipcInit : IpcManager := { ipcChan := [], isChanEnabled := true }

/-- Possible fates of a call to SendIpcEvt: an error return because the
channel is disabled, a completed non-blocking enqueue, or a suspension of
the calling goroutine because the channel buffer is full (a Go channel
send on a full buffered channel blocks until space frees). -/
inductive SendOutcome where
| sent : SendOutcome
| closedErr : SendOutcome
| blocked : SendOutcome
deriving DecidableEq, Repr

/-- Source: ipc.SendIpcEvt.  Under the read lock: if the channel is
disabled, return the closed error; otherwise perform the channel send,
which completes immediately when the buffer has room and blocks when the
buffer already holds ipcChanCap events. -/
def SendIpcEvt (m : IpcManager) (evt : EvtType) : SendOutcome × IpcManager :=
  if m.isChanEnabled = false then (SendOutcome.closedErr, m)
  else if m.ipcChan.length < ipcChanCap then
    (SendOutcome.sent, { m with ipcChan := m.ipcChan ++ [evt] })
  else (SendOutcome.blocked, m)

/-- Source: the ctx.Done path of ipc.Run, which disables the channel under
the write lock (the close of the channel follows). -/
def ipcDisable (m : IpcManager) : IpcManager := { m with isChanEnabled := false }

/-- An IPC state whose channel buffer is saturated (16 queued events). -/
def ipcFull : IpcManager :=
  { ipcChan := List.replicate 16 EvtType.Shutdown, isChanEnabled := true }

/-! ## TerminalBridge teardown coordinator (handler.TerminalWS) -/

/-- The teardown actions the TerminalWS coordinator performs after the
stop signal fires (source: the tail of handler.TerminalWS). -/
inductive TdStep where
| closeConn : TdStep
| waitInbound : TdStep
| closePty : TdStep
| killChild : TdStep
| waitChild : TdStep
| waitOutbound : TdStep
deriving DecidableEq, BEq, Repr

/-- sync.Once.Do: runs the body only on the first call.  Returns the new
fired flag and how many times the body ran (0 or 1). -/
def onceDo (fired : Bool) : Bool × Nat :=
  if fired then (true, 0) else (true, 1)

/-- k successive calls to the stop closure of TerminalWS starting from the
given sync.Once state; counts how many times stopCh gets closed. -/
def stopCalls : Nat → Bool → Nat
| 0, _ => 0
| Nat.succ k, fired => (onceDo fired).2 + stopCalls k (onceDo fired).1

/-- The teardown sequence of handler.TerminalWS after <-stopCh returns:
conn.Close(); <-done2; ptmx.Close(); cmd.Process.Kill();
cmd.Process.Wait(); <-done1. -/
def terminalTeardown : List TdStep :=
  [TdStep.closeConn, TdStep.waitInbound, TdStep.closePty,
   TdStep.killChild, TdStep.waitChild, TdStep.waitOutbound]

/-- The coordinator tail of TerminalWS: it blocks on stopCh (performing
nothing) until the stop signal has fired, then runs the teardown steps in
source order. -/
def coordinatorRun (stopFired : Bool) : List TdStep :=
  if stopFired then terminalTeardown else []

/-! ## TerminalBridge inbound pump (handler.TerminalWS goroutine B) -/

/-- Parsed control envelope (source: handler.wsMsg with json tags type,
cols, rows; Go int fields). -/
structure WsMsg where
  msgType : String
  cols : Int
  rows : Int
deriving DecidableEq, Repr

/-- One websocket message as the inbound pump sees it after
conn.ReadMessage: a binary frame carries its payload bytes; a text frame
carries the result of json.Unmarshal into wsMsg (none when the JSON is
malformed). -/
inductive InMsg where
| binary (payload : List Nat) : InMsg
| text (parsed : Option WsMsg) : InMsg
deriving DecidableEq, Repr

/-- Go conversion uint16(n) of a Go int: reduction modulo 2^16. -/
def toUint16 (n : Int) : Nat := (n % 65536).toNat

/-- Observable effects of the inbound pump: the byte stream written to the
pty and the sequence of Winsize values (uint16 cols, uint16 rows) passed
to pty.Setsize. -/
structure PumpState where
  ptyWritten : List Nat
  resizes : List (Nat × Nat)
deriving DecidableEq, Repr

/-- One loop iteration of the inbound pump (source: goroutine B of
handler.TerminalWS).  A binary frame with a non-empty payload is written
to the pty verbatim; a text frame that fails to unmarshal is logged and
skipped; an unmarshalled envelope triggers pty.Setsize exactly when its
type is resize and cols and rows are positive, with the uint16
conversions applied; any other envelope is ignored. -/
def inboundStep (st : PumpState) (m : InMsg) : PumpState :=
  match m with
  | InMsg.binary p =>
      if 0 < p.length then { st with ptyWritten := st.ptyWritten ++ p } else st
  | InMsg.text none => st
  | InMsg.text (some r) =>
      if r.msgType = "resize" then
        if 0 < r.cols ∧ 0 < r.rows then
          { st with resizes := st.resizes ++ [(toUint16 r.cols, toUint16 r.rows)] }
        else st
      else st

/-- The inbound pump over a sequence of received messages (the loop of
goroutine B until read error or close). -/
def inboundPump (msgs : List InMsg) : PumpState :=
  List.foldl inboundStep { ptyWritten := [], resizes := [] } msgs

/-- Specification-side description: the concatenation, in order, of the
payloads of the binary frames of a message sequence. -/
def binaryConcat : List InMsg → List Nat
| [] => []
| InMsg.binary p :: rest => p ++ binaryConcat rest
| InMsg.text _ :: rest => binaryConcat rest

/-- The resize envelope with cols 65536 used to probe the uint16 cast. -/
def badResize : WsMsg := { msgType := "resize", cols := 65536, rows := 40 }

/-! ## Task failure boundary (task.Run / task.RunAll goroutine) -/

/-- How a task body ends: a normal return or an abort carrying an
arbitrary failure value. -/
inductive BodyOutcome (P : Type) where
| normal : BodyOutcome P
| panics (v : P) : BodyOutcome P
deriving DecidableEq, Repr

/-- Which handler the deferred closure invokes: the configured handler
when tm.panicHandler is non-nil, otherwise tm.defPanicHandler (which
writes to stderr). -/
inductive HandlerKind where
| configured : HandlerKind
| defaultStderr : HandlerKind
deriving DecidableEq, Repr

/-- Observable effect of one task goroutine: the handler invocations with
the values delivered, the number of Done calls on the task's own counter
and on the supervisor's counter, and whether the abort escaped the
goroutine. -/
structure GoroutineEffect (P : Type) where
  handlerCalls : List (HandlerKind × P)
  childDone : Nat
  parentDone : Nat
  panicPropagated : Bool
deriving DecidableEq, Repr

/-- Go recover() inside the deferred closure: yields the abort value when
the body panicked, none otherwise, and stops the unwinding. -/
def goRecover {P : Type} : BodyOutcome P → Option P
| BodyOutcome.normal => none
| BodyOutcome.panics v => some v

/-- The goroutine launched by task.Run and task.RunAll: run the body; in
the deferred closure, recover a possible abort, deliver it to the
configured handler (or the default stderr handler when none is
configured), then call Done on the child and parent wait groups.  The
recover prevents any propagation past the goroutine. -/
def taskGoroutine {P : Type} (hasHandler : Bool) (out : BodyOutcome P) : GoroutineEffect P :=
  { handlerCalls :=
      match goRecover out with
      | some v => [(if hasHandler then HandlerKind.configured else HandlerKind.defaultStderr, v)]
      | none => []
    childDone := 1
    parentDone := 1
    panicPropagated := false }

/-! ## TaskSupervisor (package task)

The supervisor state is the registry map name -> taskUnit, the set of
cancelled cancellation-scope identifiers, the sum of completion counters
of instances no longer reachable from the registry (instances orphaned by
descriptor replacement), and a fresh-scope counter.  Scope identifiers
stand for the child contexts created by context.WithCancel; cancelling a
context is idempotent, so the cancelled set only grows.  Wait-group
completion times are environment inputs: a wait is given the time until
the watched counter reaches zero (none when the bodies never return). -/

/-- Source: task.taskUnit.  fnId stands for the registered work function;
scope is the child cancel scope (none for the nil childCancel of a fresh
descriptor); counter is the childWG counter; isRun the running flag. -/
structure TaskUnit where
  fnId : Nat
  scope : Option Nat
  counter : Nat
  isRun : Bool
deriving DecidableEq, Repr

/-- Source: task.TaskManager (registry under its mutex), extended with the
cancelled-scope set, the orphaned-counter sum (the parentWG contribution
of instances the registry no longer reaches) and the fresh-scope counter. -/
structure TaskManager where
  tasks : List (String × TaskUnit)
  cancelled : List Nat
  orphanSum : Nat
  nextScope : Nat
deriving DecidableEq, Repr

/-- Source: task.NewTaskManager. -/
def newTaskManager : TaskManager :=
  { tasks := [], cancelled := [], orphanSum := 0, nextScope := 0 }

/-- Go map read tm.tasks[name]. -/
def lookupTask : List (String × TaskUnit) → String → Option TaskUnit
| [], _ => none
| (k, u) :: rest, n => if k = n then some u else lookupTask rest n

/-- Go map write tm.tasks[name] = u. -/
def setTask : List (String × TaskUnit) → String → TaskUnit → List (String × TaskUnit)
| [], n, u => [(n, u)]
| (k, v) :: rest, n, u => if k = n then (n, u) :: rest else (k, v) :: setTask rest n u

/-- Go map delete(tm.tasks, name). -/
def eraseTask : List (String × TaskUnit) → String → List (String × TaskUnit)
| [], _ => []
| (k, v) :: rest, n => if k = n then rest else (k, v) :: eraseTask rest n

/-- Record a context cancellation; cancelling twice is the same as once. -/
def insertScope (s : Nat) (l : List Nat) : List Nat := if s ∈ l then l else s :: l

/-- Source: task.AddTask.  Unconditionally overwrites the registry entry
with a zero-valued descriptor carrying only the work function.  When the
overwritten descriptor had a live instance, that instance's counter moves
to the orphaned sum (its goroutine keeps running, reachable by nothing). -/
def AddTask (tm : TaskManager) (name : String) (fnId : Nat) : TaskManager :=
  { tm with
    tasks := setTask tm.tasks name { fnId := fnId, scope := none, counter := 0, isRun := false }
    orphanSum := tm.orphanSum +
      (match lookupTask tm.tasks name with | some u => u.counter | none => 0) }

/-- Result of task.Run: nil or the does-not-exist error. -/
inductive RunRes where
| ok : RunRes
| notFound : RunRes
deriving DecidableEq, Repr

/-- Source: task.Run.  Unregistered name fails with notFound; a running
task is left alone; otherwise derive a fresh child scope from the parent
context, add one to both wait groups, set the running flag and launch the
goroutine. -/
def Run (tm : TaskManager) (name : String) : RunRes × TaskManager :=
  match lookupTask tm.tasks name with
  | none => (RunRes.notFound, tm)
  | some u =>
    if u.isRun then (RunRes.ok, tm)
    else
      (RunRes.ok,
       { tm with
         tasks := setTask tm.tasks name
           { u with scope := some tm.nextScope, counter := u.counter + 1, isRun := true }
         nextScope := tm.nextScope + 1 })

/-- Source: the loop body of task.RunAll, threading the fresh-scope
counter through the registry: running entries are skipped, every other
entry gets a fresh scope, a counter increment and the running flag. -/
def runAllAux : List (String × TaskUnit) → Nat → List (String × TaskUnit) × Nat
| [], ns => ([], ns)
| (k, u) :: rest, ns =>
  if u.isRun then
    ((k, u) :: (runAllAux rest ns).1, (runAllAux rest ns).2)
  else
    ((k, { u with scope := some ns, counter := u.counter + 1, isRun := true })
       :: (runAllAux rest (ns + 1)).1,
     (runAllAux rest (ns + 1)).2)

/-- Source: task.RunAll. -/
def RunAll (tm : TaskManager) : TaskManager :=
  { tm with
    tasks := (runAllAux tm.tasks tm.nextScope).1
    nextScope := (runAllAux tm.tasks tm.nextScope).2 }

/-- Result of a bounded wait: the nil return, the timeout error, or no
return at all (an unbounded wait on counters that never reach zero). -/
inductive WaitRes where
| ok : WaitRes
| timedOut : WaitRes
| hangs : WaitRes
deriving DecidableEq, Repr

/-- Source: task.WaitGroupWithTimeout.  counter is the watched wait-group
counter at call time; finishIn the time until it reaches zero (none when
it never does); a counter already at zero completes immediately.  A
negative timeout waits with no bound; otherwise the wait succeeds exactly
when completion happens within the timeout, and returns the timeout error
otherwise. -/
def WaitGroupWithTimeout (counter : Nat) (finishIn : Option Nat) (timeout : Int) : WaitRes :=
  match if counter = 0 then some 0 else finishIn with
  | some t =>
      if timeout < 0 then WaitRes.ok
      else if (t : Int) ≤ timeout then WaitRes.ok else WaitRes.timedOut
  | none => if timeout < 0 then WaitRes.hangs else WaitRes.timedOut

/-- Source: task.Shutdown.  Missing name: nil.  Registered name: when a
child scope exists, cancel it and run the bounded wait on the task's own
counter, returning the timeout error without touching the entry when the
wait fails; on success (the body has returned, so the counter is zero)
clear the running flag. -/
def Shutdown (tm : TaskManager) (name : String) (timeout : Int) (finishIn : Option Nat) :
    WaitRes × TaskManager :=
  match lookupTask tm.tasks name with
  | none => (WaitRes.ok, tm)
  | some u =>
    match u.scope with
    | none => (WaitRes.ok, { tm with tasks := setTask tm.tasks name { u with isRun := false } })
    | some s =>
      match WaitGroupWithTimeout u.counter finishIn timeout with
      | WaitRes.ok =>
          (WaitRes.ok,
           { tm with
             cancelled := insertScope s tm.cancelled
             tasks := setTask tm.tasks name { u with counter := 0, isRun := false } })
      | WaitRes.timedOut => (WaitRes.timedOut, { tm with cancelled := insertScope s tm.cancelled })
      | WaitRes.hangs => (WaitRes.hangs, { tm with cancelled := insertScope s tm.cancelled })

/-- Source: task.RemoveTask.  Missing name: nil.  Registered name with a
nil childCancel: delete the entry at once.  Otherwise cancel the scope and
run the bounded wait, returning early on the timeout error (entry and flag
untouched); on success delete the registration. -/
def RemoveTask (tm : TaskManager) (name : String) (timeout : Int) (finishIn : Option Nat) :
    WaitRes × TaskManager :=
  match lookupTask tm.tasks name with
  | none => (WaitRes.ok, tm)
  | some u =>
    match u.scope with
    | none => (WaitRes.ok, { tm with tasks := eraseTask tm.tasks name })
    | some s =>
      match WaitGroupWithTimeout u.counter finishIn timeout with
      | WaitRes.ok =>
          (WaitRes.ok,
           { tm with
             cancelled := insertScope s tm.cancelled
             tasks := eraseTask tm.tasks name })
      | WaitRes.timedOut => (WaitRes.timedOut, { tm with cancelled := insertScope s tm.cancelled })
      | WaitRes.hangs => (WaitRes.hangs, { tm with cancelled := insertScope s tm.cancelled })

/-- The cancellation loop of task.ShutdownAll: cancel every non-nil child
scope in the registry. -/
def cancelScopesAux : List (String × TaskUnit) → List Nat → List Nat
| [], acc => acc
| (_, u) :: rest, acc =>
  cancelScopesAux rest (match u.scope with | some s => insertScope s acc | none => acc)

/-- The parentWG counter: every live instance launched by Run or RunAll
holds one unit, whether its descriptor is still registered or orphaned. -/
def parentCounter (tm : TaskManager) : Nat :=
  (tm.tasks.map (fun p => p.2.counter)).sum + tm.orphanSum

/-- The per-entry effect of a successful ShutdownAll: the running flag is
set false; the parent wait group having reached zero means the body has
returned, so the completion counter is zero as well. -/
def stopUnit (u : TaskUnit) : TaskUnit := { u with counter := 0, isRun := false }

/-- The success loop of task.ShutdownAll over the whole registry. -/
def stopAllUnits (l : List (String × TaskUnit)) : List (String × TaskUnit) :=
  l.map (fun p => (p.1, stopUnit p.2))

/-- Source: task.ShutdownAll.  Cancel every child scope, then run the
bounded wait on the parent wait group; on the timeout error return with
every flag as it was; on success clear every running flag. -/
def ShutdownAll (tm : TaskManager) (timeout : Int) (finishIn : Option Nat) :
    WaitRes × TaskManager :=
  match WaitGroupWithTimeout (parentCounter tm) finishIn timeout with
  | WaitRes.ok =>
      (WaitRes.ok,
       { tm with
         cancelled := cancelScopesAux tm.tasks tm.cancelled
         tasks := stopAllUnits tm.tasks
         orphanSum := 0 })
  | WaitRes.timedOut =>
      (WaitRes.timedOut, { tm with cancelled := cancelScopesAux tm.tasks tm.cancelled })
  | WaitRes.hangs =>
      (WaitRes.hangs, { tm with cancelled := cancelScopesAux tm.tasks tm.cancelled })

/-- The effect on one registry entry of the body of the instance holding
scope sid returning on its own: the goroutine's deferred closure calls
Done on both wait groups; the running flag is not touched there. -/
def bodyRetUnit (sid : Nat) (u : TaskUnit) : TaskUnit :=
  if u.scope = some sid then { u with counter := u.counter - 1 } else u

/-- Environment event: the body of the registry instance holding scope sid
returns on its own. -/
def bodyReturns (tm : TaskManager) (sid : Nat) : TaskManager :=
  { tm with tasks := tm.tasks.map (fun p => (p.1, bodyRetUnit sid p.2)) }

/-- Environment event: an orphaned instance's body returns. -/
def orphanReturns (tm : TaskManager) : TaskManager :=
  { tm with orphanSum := tm.orphanSum - 1 }

/-- Every supervisor-level transition: the six exported operations plus
the two environment events of bodies returning. -/
inductive Op where
| add (name : String) (fnId : Nat) : Op
| runOne (name : String) : Op
| runAllOp : Op
| shutdown (name : String) (timeout : Int) (finishIn : Option Nat) : Op
| shutdownAll (timeout : Int) (finishIn : Option Nat) : Op
| remove (name : String) (timeout : Int) (finishIn : Option Nat) : Op
| bodyRet (sid : Nat) : Op
| orphanRet : Op
deriving DecidableEq, Repr

/-- State effect of one operation (return values discarded). -/
def stepOp (tm : TaskManager) : Op → TaskManager
| Op.add n f => AddTask tm n f
| Op.runOne n => (Run tm n).2
| Op.runAllOp => RunAll tm
| Op.shutdown n t f => (Shutdown tm n t f).2
| Op.shutdownAll t f => (ShutdownAll tm t f).2
| Op.remove n t f => (RemoveTask tm n t f).2
| Op.bodyRet s => bodyReturns tm s
| Op.orphanRet => orphanReturns tm

/-- A sequence of operations. -/
def runOps (tm : TaskManager) (ops : List Op) : TaskManager := List.foldl stepOp tm ops

/-- The child-scope identifiers reachable from the registry. -/
def registryScopes (l : List (String × TaskUnit)) : List Nat :=
  l.filterMap (fun p => p.2.scope)

/-- A scope nothing can reach any more: absent from the registry, below
the fresh-scope counter, and not yet cancelled. -/
def scopeFree (s : Nat) (tm : TaskManager) : Prop :=
  s ∉ registryScopes tm.tasks ∧ s < tm.nextScope ∧ s ∉ tm.cancelled

/-- Boolean bound check: the entry's scope identifier, when present, lies
below the fresh-scope counter. -/
def scopeBound (u : TaskUnit) (ns : Nat) : Bool :=
  match u.scope with
  | some x => decide (x < ns)
  | none => true

/-- A supervisor with the single task a registered and started. -/
def tmRunning : TaskManager := runOps newTaskManager [Op.add "a" 0, Op.runOne "a"]

/-- A supervisor with the single task a registered but never started. -/
def tmReg : TaskManager := AddTask newTaskManager "a" 0

/-! ## Theorems: ShutdownRelay (claim C1) -/

/-- C1 counterexample: with the relay enabled and its 16-slot buffer
saturated, SendIpcEvt does not fail with any error — the channel send
blocks the caller; the claimed backpressure-error return does not exist
in the code. -/
theorem c1_full_queue_blocks :
    (SendIpcEvt ipcFull EvtType.Shutdown).1 = SendOutcome.blocked ∧
    (SendIpcEvt ipcFull EvtType.Shutdown).1 ≠ SendOutcome.closedErr ∧
    (SendIpcEvt ipcFull EvtType.Shutdown).2 = ipcFull := by decide

/-- C1 amended: a SendIpcEvt call on a disabled relay fails with the
closed error and enqueues nothing; on an enabled relay with a non-full
buffer it enqueues without blocking; on an enabled relay with a saturated
buffer (16 queued events) it blocks rather than returning an error. -/
theorem c1_sendIpcEvt_amended (m : IpcManager) (evt : EvtType) :
    (m.isChanEnabled = false → SendIpcEvt m evt = (SendOutcome.closedErr, m)) ∧
    (m.isChanEnabled = true → m.ipcChan.length < ipcChanCap →
      SendIpcEvt m evt = (SendOutcome.sent, { m with ipcChan := m.ipcChan ++ [evt] })) ∧
    (m.isChanEnabled = true → ipcChanCap ≤ m.ipcChan.length →
      SendIpcEvt m evt = (SendOutcome.blocked, m)) := by
  refine ⟨fun h1 => ?_, fun h1 h2 => ?_, fun h1 h2 => ?_⟩
  · simp [SendIpcEvt, h1]
  · simp [SendIpcEvt, h1, h2]
  · simp [SendIpcEvt, h1]
    omega

/-- Witness for the amended C1 at the saturated state. -/
theorem c1_sendIpcEvt_amended_witness :
    ipcFull.isChanEnabled = true ∧ ipcChanCap ≤ ipcFull.ipcChan.length ∧
    SendIpcEvt ipcFull EvtType.Shutdown = (SendOutcome.blocked, ipcFull) :=
  ⟨by decide, by decide,
   (c1_sendIpcEvt_amended ipcFull EvtType.Shutdown).2.2 (by decide) (by decide)⟩

/-! ## Theorems: TerminalBridge teardown (claim C3) -/

/-- Once the flag has fired, further stop calls never close stopCh again. -/
theorem stopCalls_fired (k : Nat) : stopCalls k true = 0 := by
  induction k with
  | zero => rfl
  | succ k ih => simp [stopCalls, onceDo, ih]

/-- C3: any positive number of near-simultaneous stop() calls closes the
stop channel exactly once; the coordinator performs nothing before the
stop signal fires, and afterwards runs each teardown step exactly once in
the order: close the connection, wait for the inbound pump, close the
pty, kill the child process, reap the child process, wait for the
outbound pump. -/
theorem c3_teardown_once_and_ordered :
    (∀ k : Nat, 1 ≤ k → stopCalls k false = 1) ∧
    coordinatorRun false = [] ∧
    ((coordinatorRun true).count TdStep.closeConn = 1 ∧
     (coordinatorRun true).count TdStep.waitInbound = 1 ∧
     (coordinatorRun true).count TdStep.closePty = 1 ∧
     (coordinatorRun true).count TdStep.killChild = 1 ∧
     (coordinatorRun true).count TdStep.waitChild = 1 ∧
     (coordinatorRun true).count TdStep.waitOutbound = 1) ∧
    ((coordinatorRun true).indexOf TdStep.closeConn <
       (coordinatorRun true).indexOf TdStep.waitInbound ∧
     (coordinatorRun true).indexOf TdStep.waitInbound <
       (coordinatorRun true).indexOf TdStep.closePty ∧
     (coordinatorRun true).indexOf TdStep.closePty <
       (coordinatorRun true).indexOf TdStep.killChild ∧
     (coordinatorRun true).indexOf TdStep.killChild <
       (coordinatorRun true).indexOf TdStep.waitChild ∧
     (coordinatorRun true).indexOf TdStep.waitChild <
       (coordinatorRun true).indexOf TdStep.waitOutbound) := by
  refine ⟨fun k hk => ?_, by decide, by decide, by decide⟩
  match k, hk with
  | Nat.succ k, _ => simp [stopCalls, onceDo, stopCalls_fired]

/-- Witness for C3: two triggers (one from each pump) close stopCh once. -/
theorem c3_teardown_once_and_ordered_witness : 1 ≤ 2 ∧ stopCalls 2 false = 1 :=
  ⟨by decide, c3_teardown_once_and_ordered.1 2 (by decide)⟩

/-! ## Theorems: TerminalBridge inbound pump (claims C5, C9) -/

/-- A text frame never changes the bytes written to the pty. -/
theorem inboundStep_text_ptyWritten (st : PumpState) (o : Option WsMsg) :
    (inboundStep st (InMsg.text o)).ptyWritten = st.ptyWritten := by
  cases o with
  | none => rfl
  | some r =>
    simp only [inboundStep]
    split
    · split
      · rfl
      · rfl
    · rfl

/-- A binary frame appends exactly its payload to the pty byte stream
(an empty payload is skipped by the length guard, appending nothing). -/
theorem inboundStep_binary_ptyWritten (st : PumpState) (p : List Nat) :
    (inboundStep st (InMsg.binary p)).ptyWritten = st.ptyWritten ++ p := by
  simp only [inboundStep]
  split
  · rfl
  · next h =>
    have hp : p = [] := by
      cases p with
      | nil => rfl
      | cons a as => exact absurd (by simp) h
    simp [hp]

/-- The pty byte stream produced by the pump is the in-order
concatenation of the binary payloads. -/
theorem foldl_inboundStep_ptyWritten (msgs : List InMsg) (st : PumpState) :
    (List.foldl inboundStep st msgs).ptyWritten = st.ptyWritten ++ binaryConcat msgs := by
  induction msgs generalizing st with
  | nil => simp [binaryConcat]
  | cons m rest ih =>
    cases m with
    | binary p =>
      simp only [List.foldl, binaryConcat]
      rw [ih, inboundStep_binary_ptyWritten, List.append_assoc]
    | text o =>
      simp only [List.foldl, binaryConcat]
      rw [ih, inboundStep_text_ptyWritten]

/-- C5 amended: binary payloads are written to the pty verbatim and in
order; a parsed text envelope triggers exactly one resize application —
with the envelope's values reduced by the uint16 conversions — exactly
when its type is resize and cols and rows are positive; a malformed text
frame is skipped and the pump keeps processing the rest of the session's
messages unchanged. -/
theorem c5_inbound_pump_amended :
    (∀ msgs : List InMsg, (inboundPump msgs).ptyWritten = binaryConcat msgs) ∧
    (∀ r : WsMsg, (inboundPump [InMsg.text (some r)]).resizes =
       if r.msgType = "resize" ∧ 0 < r.cols ∧ 0 < r.rows
       then [(toUint16 r.cols, toUint16 r.rows)] else []) ∧
    (∀ pre post : List InMsg,
       inboundPump (pre ++ InMsg.text none :: post) = inboundPump (pre ++ post)) := by
  refine ⟨fun msgs => ?_, fun r => ?_, fun pre post => ?_⟩
  · simpa using foldl_inboundStep_ptyWritten msgs { ptyWritten := [], resizes := [] }
  · by_cases h1 : r.msgType = "resize"
    · by_cases h2 : 0 < r.cols ∧ 0 < r.rows
      · simp [inboundPump, inboundStep, h1, h2]
      · simp [inboundPump, inboundStep, h1, h2]
    · simp [inboundPump, inboundStep, h1]
  · simp only [inboundPump, List.foldl_append, List.foldl]
    rfl

/-- C5 counterexample: the well-formed envelope with type resize,
cols 65536, rows 40 passes the positivity guard, yet the single resize it
triggers does not carry the given values — the uint16 conversion turns
cols into 0. -/
theorem c5_given_values_counterexample :
    ¬(((inboundPump [InMsg.text (some badResize)]).resizes =
        [(badResize.cols.toNat, badResize.rows.toNat)]) ↔
      (badResize.msgType = "resize" ∧ 0 < badResize.cols ∧ 0 < badResize.rows)) := by
  decide

/-- C9: a resize envelope whose cols or rows exceeds 65535 still passes
the positivity check on the parsed integers, and the values handed to
pty.Setsize are the originals reduced modulo 2^16. -/
theorem c9_resize_uint16_reduction (c r : Int) (hc : 0 < c) (hr : 0 < r)
    (_hbig : 65535 < c ∨ 65535 < r) :
    (inboundPump [InMsg.text (some { msgType := "resize", cols := c, rows := r })]).resizes =
      [(c.toNat % 65536, r.toNat % 65536)] := by
  have h2 : (0:Int) < c ∧ (0:Int) < r := ⟨hc, hr⟩
  simp [inboundPump, inboundStep, h2, toUint16]
  constructor <;> omega

/-- Witness for C9: cols 65536 is applied to the pty as 0. -/
theorem c9_resize_uint16_reduction_witness :
    (0:Int) < 65536 ∧ (0:Int) < 40 ∧ ((65535:Int) < 65536 ∨ (65535:Int) < 40) ∧
    (inboundPump [InMsg.text (some { msgType := "resize", cols := 65536, rows := 40 })]).resizes
      = [(0, 40)] := by
  refine ⟨by decide, by decide, Or.inl (by decide), ?_⟩
  rw [c9_resize_uint16_reduction 65536 40 (by decide) (by decide) (Or.inl (by decide))]
  decide

/-! ## Theorems: task failure boundary (claim C6) -/

/-- C6: an aborting task body has its exact failure value delivered once
to the configured handler (to the default stderr handler when none is
configured); the abort never escapes the goroutine; and on any return —
normal or aborted — both the task's and the supervisor's completion
counters receive exactly one Done, for every task launched, so siblings
are unaffected. -/
theorem c6_panic_isolation {P : Type} (hasHandler : Bool) (v : P) (out : BodyOutcome P) :
    (taskGoroutine hasHandler (BodyOutcome.panics v)).handlerCalls.map Prod.snd = [v] ∧
    (taskGoroutine hasHandler (BodyOutcome.panics v)).handlerCalls.map Prod.fst =
      [if hasHandler then HandlerKind.configured else HandlerKind.defaultStderr] ∧
    (taskGoroutine hasHandler out).childDone = 1 ∧
    (taskGoroutine hasHandler out).parentDone = 1 ∧
    (taskGoroutine hasHandler out).panicPropagated = false ∧
    (taskGoroutine hasHandler (BodyOutcome.normal : BodyOutcome P)).handlerCalls = [] ∧
    (∀ outs : List (BodyOutcome P),
       ((outs.map (taskGoroutine hasHandler)).map GoroutineEffect.parentDone).sum
         = outs.length) := by
  refine ⟨rfl, rfl, rfl, rfl, rfl, rfl, fun outs => ?_⟩
  induction outs with
  | nil => rfl
  | cons o rest ih =>
    simp only [List.map_cons, List.sum_cons, List.length_cons, ih]
    simp only [taskGoroutine]
    omega

/-! ## Theorems: TaskSupervisor registry lemmas -/

theorem mem_insertScope {x s : Nat} {l : List Nat} :
    x ∈ insertScope s l ↔ x = s ∨ x ∈ l := by
  unfold insertScope
  split
  · next h =>
    constructor
    · exact fun hx => Or.inr hx
    · rintro (rfl | hx)
      · exact h
      · exact hx
  · simp [List.mem_cons]

theorem insertScope_mem_self {s : Nat} {l : List Nat} : s ∈ insertScope s l := by
  unfold insertScope
  split
  · assumption
  · exact List.mem_cons_self s l

theorem insertScope_of_mem {s : Nat} {l : List Nat} (h : s ∈ l) : insertScope s l = l := by
  unfold insertScope
  simp [h]

theorem lookupTask_mem {n : String} {u : TaskUnit} :
    ∀ {l : List (String × TaskUnit)}, lookupTask l n = some u → (n, u) ∈ l := by
  intro l
  induction l with
  | nil => intro h; simp [lookupTask] at h
  | cons p rest ih =>
    intro h
    obtain ⟨k, v⟩ := p
    rw [lookupTask] at h
    by_cases hk : k = n
    · subst hk
      rw [if_pos rfl] at h
      cases h
      exact List.mem_cons_self _ _
    · rw [if_neg hk] at h
      exact List.mem_cons_of_mem _ (ih h)

theorem lookupTask_setTask_self (l : List (String × TaskUnit)) (n : String) (u : TaskUnit) :
    lookupTask (setTask l n u) n = some u := by
  induction l with
  | nil => simp [setTask, lookupTask]
  | cons p rest ih =>
    obtain ⟨k, v⟩ := p
    rw [setTask]
    by_cases hk : k = n
    · rw [if_pos hk, lookupTask, if_pos rfl]
    · rw [if_neg hk, lookupTask, if_neg hk]
      exact ih

theorem setTask_self {n : String} {u : TaskUnit} :
    ∀ {l : List (String × TaskUnit)}, lookupTask l n = some u → setTask l n u = l := by
  intro l
  induction l with
  | nil => intro h; simp [lookupTask] at h
  | cons p rest ih =>
    intro h
    obtain ⟨k, v⟩ := p
    rw [lookupTask] at h
    rw [setTask]
    by_cases hk : k = n
    · subst hk
      rw [if_pos rfl] at h
      cases h
      rw [if_pos rfl]
    · rw [if_neg hk] at h
      rw [if_neg hk, ih h]

theorem lookupTask_not_mem_keys {n : String} :
    ∀ {l : List (String × TaskUnit)}, n ∉ l.map Prod.fst → lookupTask l n = none := by
  intro l
  induction l with
  | nil => intro _; rfl
  | cons p rest ih =>
    intro h
    obtain ⟨k, v⟩ := p
    rw [List.map_cons, List.mem_cons] at h
    push_neg at h
    rw [lookupTask, if_neg (fun hk => h.1 hk.symm)]
    exact ih h.2

theorem lookupTask_eraseTask_self {n : String} :
    ∀ {l : List (String × TaskUnit)}, (l.map Prod.fst).Nodup →
      lookupTask (eraseTask l n) n = none := by
  intro l
  induction l with
  | nil => intro _; rfl
  | cons p rest ih =>
    intro hnd
    obtain ⟨k, v⟩ := p
    rw [List.map_cons, List.nodup_cons] at hnd
    rw [eraseTask]
    by_cases hk : k = n
    · rw [if_pos hk]
      subst hk
      exact lookupTask_not_mem_keys hnd.1
    · rw [if_neg hk, lookupTask, if_neg hk]
      exact ih hnd.2

theorem mem_eraseTask {p : String × TaskUnit} {n : String} :
    ∀ {l : List (String × TaskUnit)}, p ∈ eraseTask l n → p ∈ l := by
  intro l
  induction l with
  | nil => intro h; simp [eraseTask] at h
  | cons q rest ih =>
    intro h
    obtain ⟨k, v⟩ := q
    rw [eraseTask] at h
    by_cases hk : k = n
    · rw [if_pos hk] at h
      exact List.mem_cons_of_mem _ h
    · rw [if_neg hk] at h
      rcases List.mem_cons.mp h with h1 | h1
      · exact h1 ▸ List.mem_cons_self _ _
      · exact List.mem_cons_of_mem _ (ih h1)

theorem mem_setTask {p : String × TaskUnit} {n : String} {u : TaskUnit} :
    ∀ {l : List (String × TaskUnit)}, p ∈ setTask l n u → p = (n, u) ∨ p ∈ l := by
  intro l
  induction l with
  | nil =>
    intro h
    simp [setTask] at h
    exact Or.inl h
  | cons q rest ih =>
    intro h
    obtain ⟨k, v⟩ := q
    rw [setTask] at h
    by_cases hk : k = n
    · rw [if_pos hk] at h
      rcases List.mem_cons.mp h with h1 | h1
      · exact Or.inl h1
      · exact Or.inr (List.mem_cons_of_mem _ h1)
    · rw [if_neg hk] at h
      rcases List.mem_cons.mp h with h1 | h1
      · exact Or.inr (h1 ▸ List.mem_cons_self _ _)
      · rcases ih h1 with h2 | h2
        · exact Or.inl h2
        · exact Or.inr (List.mem_cons_of_mem _ h2)

theorem mem_setTask_key {n : String} {u : TaskUnit} {p : String × TaskUnit} :
    ∀ {l : List (String × TaskUnit)}, (l.map Prod.fst).Nodup →
      p ∈ setTask l n u → p.1 = n → p = (n, u) := by
  intro l
  induction l with
  | nil =>
    intro _ hp _
    simpa [setTask] using hp
  | cons q rest ih =>
    intro hnd hp hk
    obtain ⟨k, v⟩ := q
    rw [List.map_cons, List.nodup_cons] at hnd
    rw [setTask] at hp
    by_cases hkn : k = n
    · rw [if_pos hkn] at hp
      rcases List.mem_cons.mp hp with h1 | h1
      · exact h1
      · exfalso
        have hmem : p.1 ∈ rest.map Prod.fst := List.mem_map_of_mem Prod.fst h1
        rw [hk, ← hkn] at hmem
        exact hnd.1 hmem
    · rw [if_neg hkn] at hp
      rcases List.mem_cons.mp hp with h1 | h1
      · exfalso
        rw [h1] at hk
        exact hkn hk
      · exact ih hnd.2 h1 hk

theorem mem_registryScopes {x : Nat} {l : List (String × TaskUnit)} :
    x ∈ registryScopes l ↔ ∃ p ∈ l, p.2.scope = some x := by
  simp [registryScopes, List.mem_filterMap]

theorem runAllAux_le : ∀ (l : List (String × TaskUnit)) (ns : Nat), ns ≤ (runAllAux l ns).2 := by
  intro l
  induction l with
  | nil => intro ns; exact Nat.le_refl ns
  | cons q rest ih =>
    intro ns
    obtain ⟨k, u⟩ := q
    rw [runAllAux]
    by_cases hr : u.isRun = true
    · rw [if_pos hr]
      exact ih ns
    · rw [if_neg hr]
      exact Nat.le_trans (Nat.le_succ ns) (ih (ns + 1))

theorem mem_runAllAux {p : String × TaskUnit} :
    ∀ (l : List (String × TaskUnit)) (ns : Nat), p ∈ (runAllAux l ns).1 →
      p ∈ l ∨ ∃ q ∈ l, ∃ s : Nat, ns ≤ s ∧
        p = (q.1, { q.2 with scope := some s, counter := q.2.counter + 1, isRun := true }) := by
  intro l
  induction l with
  | nil => intro ns h; simp [runAllAux] at h
  | cons q rest ih =>
    intro ns h
    obtain ⟨k, u⟩ := q
    rw [runAllAux] at h
    by_cases hr : u.isRun = true
    · rw [if_pos hr] at h
      rcases List.mem_cons.mp h with h1 | h1
      · exact Or.inl (h1 ▸ List.mem_cons_self _ _)
      · rcases ih ns h1 with h2 | ⟨q2, hq2, s, hs, hp⟩
        · exact Or.inl (List.mem_cons_of_mem _ h2)
        · exact Or.inr ⟨q2, List.mem_cons_of_mem _ hq2, s, hs, hp⟩
    · rw [if_neg hr] at h
      rcases List.mem_cons.mp h with h1 | h1
      · exact Or.inr ⟨(k, u), List.mem_cons_self _ _, ns, Nat.le_refl ns, h1⟩
      · rcases ih (ns + 1) h1 with h2 | ⟨q2, hq2, s, hs, hp⟩
        · exact Or.inl (List.mem_cons_of_mem _ h2)
        · exact Or.inr ⟨q2, List.mem_cons_of_mem _ hq2, s, Nat.le_of_succ_le hs, hp⟩

theorem mem_cancelScopesAux {x : Nat} :
    ∀ (l : List (String × TaskUnit)) (acc : List Nat),
      x ∈ cancelScopesAux l acc → x ∈ acc ∨ x ∈ registryScopes l := by
  intro l
  induction l with
  | nil => intro acc h; exact Or.inl h
  | cons q rest ih =>
    intro acc h
    obtain ⟨k, u⟩ := q
    rw [cancelScopesAux] at h
    cases hs : u.scope with
    | none =>
      rw [hs] at h
      rcases ih _ h with h1 | h1
      · exact Or.inl h1
      · right
        rcases mem_registryScopes.mp h1 with ⟨p, hp, hps⟩
        exact mem_registryScopes.mpr ⟨p, List.mem_cons_of_mem _ hp, hps⟩
    | some s =>
      rw [hs] at h
      rcases ih _ h with h1 | h1
      · rcases mem_insertScope.mp h1 with h2 | h2
        · right
          exact mem_registryScopes.mpr ⟨(k, u), List.mem_cons_self _ _, h2 ▸ hs⟩
        · exact Or.inl h2
      · right
        rcases mem_registryScopes.mp h1 with ⟨p, hp, hps⟩
        exact mem_registryScopes.mpr ⟨p, List.mem_cons_of_mem _ hp, hps⟩

theorem bodyRetUnit_scope (sid : Nat) (u : TaskUnit) : (bodyRetUnit sid u).scope = u.scope := by
  rw [bodyRetUnit]
  split
  · rfl
  · rfl

theorem bodyRetUnit_isRun (sid : Nat) (u : TaskUnit) : (bodyRetUnit sid u).isRun = u.isRun := by
  rw [bodyRetUnit]
  split
  · rfl
  · rfl

theorem stopUnit_scope (u : TaskUnit) : (stopUnit u).scope = u.scope := rfl

theorem lookupTask_map (f : TaskUnit → TaskUnit) (n : String) :
    ∀ (l : List (String × TaskUnit)),
      lookupTask (l.map (fun p => (p.1, f p.2))) n = Option.map f (lookupTask l n) := by
  intro l
  induction l with
  | nil => rfl
  | cons p rest ih =>
    obtain ⟨k, v⟩ := p
    rw [List.map_cons, lookupTask, lookupTask]
    by_cases hk : k = n
    · rw [if_pos hk, if_pos hk]
      rfl
    · rw [if_neg hk, if_neg hk]
      exact ih

theorem mem_registryScopes_map {x : Nat} (f : TaskUnit → TaskUnit)
    (hf : ∀ u, (f u).scope = u.scope) (l : List (String × TaskUnit)) :
    x ∈ registryScopes (l.map (fun p => (p.1, f p.2))) ↔ x ∈ registryScopes l := by
  rw [mem_registryScopes, mem_registryScopes]
  constructor
  · rintro ⟨p, hp, hps⟩
    rcases List.mem_map.mp hp with ⟨q, hq, rfl⟩
    exact ⟨q, hq, (hf q.2) ▸ hps⟩
  · rintro ⟨p, hp, hps⟩
    exact ⟨(p.1, f p.2), List.mem_map.mpr ⟨p, hp, rfl⟩, (hf p.2).trans hps⟩

theorem scopeBound_lt {u : TaskUnit} {ns x : Nat} (h : scopeBound u ns = true)
    (hs : u.scope = some x) : x < ns := by
  rw [scopeBound, hs] at h
  exact of_decide_eq_true h

theorem taskUnit_eta_isRun {u : TaskUnit} (h : u.isRun = false) :
    ({ u with isRun := false } : TaskUnit) = u := by
  cases u
  simp_all

theorem taskUnit_eta_stop {u : TaskUnit} (hc : u.counter = 0) (hr : u.isRun = false) :
    ({ u with counter := 0, isRun := false } : TaskUnit) = u := by
  cases u
  simp_all

theorem wait_zero (f : Option Nat) (timeout : Int) :
    WaitGroupWithTimeout 0 f timeout = WaitRes.ok := by
  rw [WaitGroupWithTimeout]
  split
  · next t ht =>
    have ht0 : t = 0 := by simpa using ht.symm
    subst ht0
    by_cases h1 : timeout < 0
    · rw [if_pos h1]
    · rw [if_neg h1, if_pos (by push_cast; omega)]
  · next ht => simp at ht

theorem wait_neg_not_timeout (counter : Nat) (f : Option Nat) (timeout : Int)
    (ht : timeout < 0) : WaitGroupWithTimeout counter f timeout ≠ WaitRes.timedOut := by
  rw [WaitGroupWithTimeout]
  split
  · rw [if_pos ht]
    intro h
    cases h
  · rw [if_pos ht]
    intro h
    cases h

theorem wait_neg_none (counter : Nat) (timeout : Int) (hc : counter ≠ 0) (ht : timeout < 0) :
    WaitGroupWithTimeout counter none timeout = WaitRes.hangs := by
  rw [WaitGroupWithTimeout, if_neg hc]
  show (if timeout < 0 then WaitRes.hangs else WaitRes.timedOut) = WaitRes.hangs
  rw [if_pos ht]

/-! ## Scope-freedom preservation: an unreachable scope is never cancelled -/

theorem scopeFree_AddTask {s : Nat} {tm : TaskManager} (n : String) (f : Nat)
    (h : scopeFree s tm) : scopeFree s (AddTask tm n f) := by
  obtain ⟨hreg, hns, hcanc⟩ := h
  refine ⟨?_, hns, hcanc⟩
  intro hx
  simp only [AddTask] at hx
  rcases mem_registryScopes.mp hx with ⟨p, hp, hps⟩
  rcases mem_setTask hp with h1 | h1
  · rw [h1] at hps
    simp at hps
  · exact hreg (mem_registryScopes.mpr ⟨p, h1, hps⟩)

theorem scopeFree_Run {s : Nat} {tm : TaskManager} (n : String)
    (h : scopeFree s tm) : scopeFree s (Run tm n).2 := by
  obtain ⟨hreg, hns, hcanc⟩ := h
  cases hl : lookupTask tm.tasks n with
  | none =>
    simp only [Run, hl]
    exact ⟨hreg, hns, hcanc⟩
  | some u =>
    by_cases hr : u.isRun = true
    · simp only [Run, hl, if_pos hr]
      exact ⟨hreg, hns, hcanc⟩
    · simp only [Run, hl, if_neg hr]
      refine ⟨?_, Nat.lt_succ_of_lt hns, hcanc⟩
      intro hx
      rcases mem_registryScopes.mp hx with ⟨p, hp, hps⟩
      rcases mem_setTask hp with h1 | h1
      · rw [h1] at hps
        simp at hps
        omega
      · exact hreg (mem_registryScopes.mpr ⟨p, h1, hps⟩)

theorem scopeFree_RunAll {s : Nat} {tm : TaskManager} (h : scopeFree s tm) :
    scopeFree s (RunAll tm) := by
  obtain ⟨hreg, hns, hcanc⟩ := h
  refine ⟨?_, Nat.lt_of_lt_of_le hns (runAllAux_le tm.tasks tm.nextScope), hcanc⟩
  intro hx
  simp only [RunAll] at hx
  rcases mem_registryScopes.mp hx with ⟨p, hp, hps⟩
  rcases mem_runAllAux _ _ hp with h1 | ⟨q, hq, s2, hs2, hpq⟩
  · exact hreg (mem_registryScopes.mpr ⟨p, h1, hps⟩)
  · rw [hpq] at hps
    simp at hps
    omega

theorem scopeFree_Shutdown {s : Nat} {tm : TaskManager} (n : String) (t : Int)
    (f : Option Nat) (h : scopeFree s tm) : scopeFree s (Shutdown tm n t f).2 := by
  obtain ⟨hreg, hns, hcanc⟩ := h
  cases hl : lookupTask tm.tasks n with
  | none =>
    simp only [Shutdown, hl]
    exact ⟨hreg, hns, hcanc⟩
  | some u =>
    cases hsc : u.scope with
    | none =>
      simp only [Shutdown, hl, hsc]
      refine ⟨?_, hns, hcanc⟩
      intro hx
      rcases mem_registryScopes.mp hx with ⟨p, hp, hps⟩
      rcases mem_setTask hp with h1 | h1
      · rw [h1] at hps
        simp [hsc] at hps
      · exact hreg (mem_registryScopes.mpr ⟨p, h1, hps⟩)
    | some s2 =>
      have hs2mem : s2 ∈ registryScopes tm.tasks :=
        mem_registryScopes.mpr ⟨(n, u), lookupTask_mem hl, hsc⟩
      have hneq : s ≠ s2 := fun he => hreg (he ▸ hs2mem)
      have hcanc2 : s ∉ insertScope s2 tm.cancelled := by
        intro hx
        rcases mem_insertScope.mp hx with h1 | h1
        · exact hneq h1
        · exact hcanc h1
      cases hw : WaitGroupWithTimeout u.counter f t with
      | ok =>
        simp only [Shutdown, hl, hsc, hw]
        refine ⟨?_, hns, hcanc2⟩
        intro hx
        rcases mem_registryScopes.mp hx with ⟨p, hp, hps⟩
        rcases mem_setTask hp with h1 | h1
        · rw [h1] at hps
          simp [hsc] at hps
          exact hneq hps.symm
        · exact hreg (mem_registryScopes.mpr ⟨p, h1, hps⟩)
      | timedOut =>
        simp only [Shutdown, hl, hsc, hw]
        exact ⟨hreg, hns, hcanc2⟩
      | hangs =>
        simp only [Shutdown, hl, hsc, hw]
        exact ⟨hreg, hns, hcanc2⟩

theorem scopeFree_RemoveTask {s : Nat} {tm : TaskManager} (n : String) (t : Int)
    (f : Option Nat) (h : scopeFree s tm) : scopeFree s (RemoveTask tm n t f).2 := by
  obtain ⟨hreg, hns, hcanc⟩ := h
  have herase : s ∉ registryScopes (eraseTask tm.tasks n) := by
    intro hx
    rcases mem_registryScopes.mp hx with ⟨p, hp, hps⟩
    exact hreg (mem_registryScopes.mpr ⟨p, mem_eraseTask hp, hps⟩)
  cases hl : lookupTask tm.tasks n with
  | none =>
    simp only [RemoveTask, hl]
    exact ⟨hreg, hns, hcanc⟩
  | some u =>
    cases hsc : u.scope with
    | none =>
      simp only [RemoveTask, hl, hsc]
      exact ⟨herase, hns, hcanc⟩
    | some s2 =>
      have hs2mem : s2 ∈ registryScopes tm.tasks :=
        mem_registryScopes.mpr ⟨(n, u), lookupTask_mem hl, hsc⟩
      have hneq : s ≠ s2 := fun he => hreg (he ▸ hs2mem)
      have hcanc2 : s ∉ insertScope s2 tm.cancelled := by
        intro hx
        rcases mem_insertScope.mp hx with h1 | h1
        · exact hneq h1
        · exact hcanc h1
      cases hw : WaitGroupWithTimeout u.counter f t with
      | ok =>
        simp only [RemoveTask, hl, hsc, hw]
        exact ⟨herase, hns, hcanc2⟩
      | timedOut =>
        simp only [RemoveTask, hl, hsc, hw]
        exact ⟨hreg, hns, hcanc2⟩
      | hangs =>
        simp only [RemoveTask, hl, hsc, hw]
        exact ⟨hreg, hns, hcanc2⟩

theorem scopeFree_ShutdownAll {s : Nat} {tm : TaskManager} (t : Int) (f : Option Nat)
    (h : scopeFree s tm) : scopeFree s (ShutdownAll tm t f).2 := by
  obtain ⟨hreg, hns, hcanc⟩ := h
  have hcanc2 : s ∉ cancelScopesAux tm.tasks tm.cancelled := by
    intro hx
    rcases mem_cancelScopesAux _ _ hx with h1 | h1
    · exact hcanc h1
    · exact hreg h1
  cases hw : WaitGroupWithTimeout (parentCounter tm) f t with
  | ok =>
    simp only [ShutdownAll, hw]
    refine ⟨?_, hns, hcanc2⟩
    intro hx
    simp only [stopAllUnits] at hx
    exact hreg ((mem_registryScopes_map stopUnit stopUnit_scope tm.tasks).mp hx)
  | timedOut =>
    simp only [ShutdownAll, hw]
    exact ⟨hreg, hns, hcanc2⟩
  | hangs =>
    simp only [ShutdownAll, hw]
    exact ⟨hreg, hns, hcanc2⟩

theorem scopeFree_bodyReturns {s : Nat} {tm : TaskManager} (sid : Nat)
    (h : scopeFree s tm) : scopeFree s (bodyReturns tm sid) := by
  obtain ⟨hreg, hns, hcanc⟩ := h
  refine ⟨?_, hns, hcanc⟩
  intro hx
  simp only [bodyReturns] at hx
  exact hreg ((mem_registryScopes_map (bodyRetUnit sid) (bodyRetUnit_scope sid) tm.tasks).mp hx)

theorem scopeFree_orphanReturns {s : Nat} {tm : TaskManager}
    (h : scopeFree s tm) : scopeFree s (orphanReturns tm) := h

theorem scopeFree_stepOp {s : Nat} {tm : TaskManager} (o : Op) (h : scopeFree s tm) :
    scopeFree s (stepOp tm o) := by
  cases o with
  | add n f => exact scopeFree_AddTask n f h
  | runOne n => exact scopeFree_Run n h
  | runAllOp => exact scopeFree_RunAll h
  | shutdown n t f => exact scopeFree_Shutdown n t f h
  | shutdownAll t f => exact scopeFree_ShutdownAll t f h
  | remove n t f => exact scopeFree_RemoveTask n t f h
  | bodyRet sid => exact scopeFree_bodyReturns sid h
  | orphanRet => exact scopeFree_orphanReturns h

theorem scopeFree_runOps {s : Nat} {tm : TaskManager} (ops : List Op) (h : scopeFree s tm) :
    scopeFree s (runOps tm ops) := by
  induction ops generalizing tm with
  | nil => exact h
  | cons o rest ih => exact ih (scopeFree_stepOp o h)

theorem runAllAux_lookup_running {n : String} {u : TaskUnit} (hr : u.isRun = true) :
    ∀ (l : List (String × TaskUnit)) (ns : Nat), lookupTask l n = some u →
      lookupTask (runAllAux l ns).1 n = some u := by
  intro l
  induction l with
  | nil => intro ns h; simp [lookupTask] at h
  | cons p rest ih =>
    intro ns h
    obtain ⟨k, v⟩ := p
    rw [lookupTask] at h
    rw [runAllAux]
    by_cases hk : k = n
    · rw [if_pos hk] at h
      cases h
      rw [if_pos hr, lookupTask, if_pos hk]
    · rw [if_neg hk] at h
      by_cases hvr : v.isRun = true
      · rw [if_pos hvr, lookupTask, if_neg hk]
        exact ih ns h
      · rw [if_neg hvr, lookupTask, if_neg hk]
        exact ih (ns + 1) h

/-! ## Theorems: TaskSupervisor claims -/

/-- C2: AddTask unconditionally replaces the registry entry with a fresh
descriptor — not running, no cancellation scope — even when the previous
descriptor's instance is still running; from then on no sequence of
supervisor operations can ever cancel the previous instance's scope. -/
theorem c2_addTask_orphans_running_instance (tm : TaskManager) (name : String) (fnId : Nat)
    (u : TaskUnit) (s : Nat)
    (hlook : lookupTask tm.tasks name = some u)
    (_hrun : u.isRun = true)
    (hscope : u.scope = some s)
    (hkeys : (tm.tasks.map Prod.fst).Nodup)
    (honly : ∀ p ∈ tm.tasks, p.2.scope = some s → p.1 = name)
    (hbound : ∀ p ∈ tm.tasks, scopeBound p.2 tm.nextScope = true)
    (hcanc : s ∉ tm.cancelled) :
    lookupTask (AddTask tm name fnId).tasks name =
      some { fnId := fnId, scope := none, counter := 0, isRun := false } ∧
    ∀ ops : List Op, s ∉ (runOps (AddTask tm name fnId) ops).cancelled := by
  have hmem : (name, u) ∈ tm.tasks := lookupTask_mem hlook
  have hfree : scopeFree s (AddTask tm name fnId) := by
    refine ⟨?_, ?_, hcanc⟩
    · intro hx
      simp only [AddTask] at hx
      rcases mem_registryScopes.mp hx with ⟨p, hp, hps⟩
      rcases mem_setTask hp with h1 | h1
      · rw [h1] at hps
        simp at hps
      · have hp1 : p.1 = name := honly p h1 hps
        have h2 := mem_setTask_key hkeys hp hp1
        rw [h2] at hps
        simp at hps
    · exact scopeBound_lt (hbound (name, u) hmem) hscope
  constructor
  · simp only [AddTask]
    exact lookupTask_setTask_self tm.tasks name _
  · intro ops
    exact (scopeFree_runOps ops hfree).2.2

/-- Witness for C2 at a concrete one-task supervisor: the descriptor is
replaced and scope 0 survives uncancelled through a shutdown-heavy
operation sequence. -/
theorem c2_addTask_orphans_running_instance_witness :
    lookupTask (AddTask tmRunning "a" 7).tasks "a" =
      some { fnId := 7, scope := none, counter := 0, isRun := false } ∧
    0 ∉ (runOps (AddTask tmRunning "a" 7)
          [Op.shutdownAll (-1) (some 2), Op.remove "a" 5 (some 1), Op.runAllOp,
           Op.shutdown "a" 9 (some 0)]).cancelled := by
  have h := c2_addTask_orphans_running_instance tmRunning "a" 7
    { fnId := 0, scope := some 0, counter := 1, isRun := true } 0
    (by decide) (by decide) (by decide) (by decide) (by decide) (by decide) (by decide)
  exact ⟨h.1, h.2 _⟩

/-- C4: for a registered running task, Shutdown cancels the task's scope
and returns exactly the bounded wait's verdict on the task's completion
counter; a negative timeout never yields the timeout error (and hangs
when the body never returns); on success the running flag is cleared; on
timeout the registry is untouched, the flag still set. -/
theorem c4_shutdown_semantics (tm : TaskManager) (name : String) (timeout : Int)
    (finishIn : Option Nat) (u : TaskUnit) (s : Nat)
    (hlook : lookupTask tm.tasks name = some u)
    (hrun : u.isRun = true)
    (hscope : u.scope = some s) :
    (Shutdown tm name timeout finishIn).1 = WaitGroupWithTimeout u.counter finishIn timeout ∧
    s ∈ (Shutdown tm name timeout finishIn).2.cancelled ∧
    ((Shutdown tm name timeout finishIn).1 = WaitRes.ok →
      lookupTask (Shutdown tm name timeout finishIn).2.tasks name =
        some { u with counter := 0, isRun := false }) ∧
    ((Shutdown tm name timeout finishIn).1 = WaitRes.timedOut →
      (Shutdown tm name timeout finishIn).2.tasks = tm.tasks ∧
      lookupTask (Shutdown tm name timeout finishIn).2.tasks name = some u ∧
      u.isRun = true) ∧
    (timeout < 0 → (Shutdown tm name timeout finishIn).1 ≠ WaitRes.timedOut) ∧
    (timeout < 0 → u.counter ≠ 0 → finishIn = none →
      (Shutdown tm name timeout finishIn).1 = WaitRes.hangs) := by
  cases hw : WaitGroupWithTimeout u.counter finishIn timeout with
  | ok =>
    have hS : Shutdown tm name timeout finishIn =
        (WaitRes.ok,
         { tm with
           cancelled := insertScope s tm.cancelled
           tasks := setTask tm.tasks name { u with counter := 0, isRun := false } }) := by
      simp only [Shutdown, hlook, hscope, hw]
    rw [hS]
    refine ⟨rfl, insertScope_mem_self, fun _ => lookupTask_setTask_self _ _ _,
           fun h => by simp at h, fun _ => by simp, fun ht hc hf => ?_⟩
    subst hf
    rw [wait_neg_none u.counter timeout hc ht] at hw
    exact absurd hw (by decide)
  | timedOut =>
    have hS : Shutdown tm name timeout finishIn =
        (WaitRes.timedOut, { tm with cancelled := insertScope s tm.cancelled }) := by
      simp only [Shutdown, hlook, hscope, hw]
    rw [hS]
    refine ⟨rfl, insertScope_mem_self, fun h => by simp at h,
           fun _ => ⟨rfl, hlook, hrun⟩,
           fun ht => absurd hw (wait_neg_not_timeout u.counter finishIn timeout ht),
           fun ht hc hf => ?_⟩
    subst hf
    rw [wait_neg_none u.counter timeout hc ht] at hw
    exact absurd hw (by decide)
  | hangs =>
    have hS : Shutdown tm name timeout finishIn =
        (WaitRes.hangs, { tm with cancelled := insertScope s tm.cancelled }) := by
      simp only [Shutdown, hlook, hscope, hw]
    rw [hS]
    exact ⟨rfl, insertScope_mem_self, fun h => by simp at h,
           fun h => by simp at h, fun _ => by simp, fun _ _ _ => rfl⟩

/-- Witness for C4: shutting down the running task a with budget 5 and a
body that completes in 3 succeeds, cancels scope 0 and clears the flag. -/
theorem c4_shutdown_semantics_witness :
    0 ∈ (Shutdown tmRunning "a" 5 (some 3)).2.cancelled ∧
    lookupTask (Shutdown tmRunning "a" 5 (some 3)).2.tasks "a" =
      some { fnId := 0, scope := some 0, counter := 0, isRun := false } := by
  have h := c4_shutdown_semantics tmRunning "a" 5 (some 3)
    { fnId := 0, scope := some 0, counter := 1, isRun := true } 0
    (by decide) (by decide) (by decide)
  exact ⟨h.2.1, h.2.2.1 (by decide)⟩

/-- C7: for a registered, previously started task (its descriptor holds a
cancel scope), RemoveTask cancels and waits exactly as Shutdown does and
deletes the registration only when the wait succeeded; on timeout the
registration is retained with the running flag still set and the error is
returned to the caller. -/
theorem c7_removeTask_semantics (tm : TaskManager) (name : String) (timeout : Int)
    (finishIn : Option Nat) (u : TaskUnit) (s : Nat)
    (hlook : lookupTask tm.tasks name = some u)
    (hrun : u.isRun = true)
    (hscope : u.scope = some s)
    (hkeys : (tm.tasks.map Prod.fst).Nodup) :
    (RemoveTask tm name timeout finishIn).1 = (Shutdown tm name timeout finishIn).1 ∧
    s ∈ (RemoveTask tm name timeout finishIn).2.cancelled ∧
    ((RemoveTask tm name timeout finishIn).1 = WaitRes.ok →
      lookupTask (RemoveTask tm name timeout finishIn).2.tasks name = none) ∧
    ((RemoveTask tm name timeout finishIn).1 = WaitRes.timedOut →
      (RemoveTask tm name timeout finishIn).2.tasks = tm.tasks ∧
      lookupTask (RemoveTask tm name timeout finishIn).2.tasks name = some u ∧
      u.isRun = true) := by
  cases hw : WaitGroupWithTimeout u.counter finishIn timeout with
  | ok =>
    have hR : RemoveTask tm name timeout finishIn =
        (WaitRes.ok,
         { tm with
           cancelled := insertScope s tm.cancelled
           tasks := eraseTask tm.tasks name }) := by
      simp only [RemoveTask, hlook, hscope, hw]
    have hSh : (Shutdown tm name timeout finishIn).1 = WaitRes.ok := by
      simp only [Shutdown, hlook, hscope, hw]
    rw [hR, hSh]
    exact ⟨rfl, insertScope_mem_self, fun _ => lookupTask_eraseTask_self hkeys,
           fun h => by simp at h⟩
  | timedOut =>
    have hR : RemoveTask tm name timeout finishIn =
        (WaitRes.timedOut, { tm with cancelled := insertScope s tm.cancelled }) := by
      simp only [RemoveTask, hlook, hscope, hw]
    have hSh : (Shutdown tm name timeout finishIn).1 = WaitRes.timedOut := by
      simp only [Shutdown, hlook, hscope, hw]
    rw [hR, hSh]
    exact ⟨rfl, insertScope_mem_self, fun h => by simp at h,
           fun _ => ⟨rfl, hlook, hrun⟩⟩
  | hangs =>
    have hR : RemoveTask tm name timeout finishIn =
        (WaitRes.hangs, { tm with cancelled := insertScope s tm.cancelled }) := by
      simp only [RemoveTask, hlook, hscope, hw]
    have hSh : (Shutdown tm name timeout finishIn).1 = WaitRes.hangs := by
      simp only [Shutdown, hlook, hscope, hw]
    rw [hR, hSh]
    exact ⟨rfl, insertScope_mem_self, fun h => by simp at h, fun h => by simp at h⟩

/-- Witness for C7: removing the running task a with budget 5 and a body
that completes in 3 succeeds and deletes the registration. -/
theorem c7_removeTask_semantics_witness :
    (RemoveTask tmRunning "a" 5 (some 3)).1 = (Shutdown tmRunning "a" 5 (some 3)).1 ∧
    lookupTask (RemoveTask tmRunning "a" 5 (some 3)).2.tasks "a" = none := by
  have h := c7_removeTask_semantics tmRunning "a" 5 (some 3)
    { fnId := 0, scope := some 0, counter := 1, isRun := true } 0
    (by decide) (by decide) (by decide) (by decide)
  exact ⟨h.1, h.2.2.1 (by decide)⟩

/-- C8 counterexample: RemoveTask on a registered but never-started task
returns success yet deletes the registration — a state change, so the
call is not a no-op as claimed. -/
theorem c8_removeTask_not_noop_counterexample :
    (RemoveTask tmReg "a" 5 none).1 = WaitRes.ok ∧
    (RemoveTask tmReg "a" 5 none).2 ≠ tmReg ∧
    lookupTask tmReg.tasks "a" =
      some { fnId := 0, scope := none, counter := 0, isRun := false } ∧
    lookupTask (RemoveTask tmReg "a" 5 none).2.tasks "a" = none := by decide

/-- C8 amended: Shutdown on an unregistered or a registered non-running
name returns success and changes nothing; RemoveTask on an unregistered
name returns success and changes nothing, while on a registered
non-running name it returns success and deletes the registration (its
only state change). -/
theorem c8_noop_amended (tm : TaskManager) (name : String) (timeout : Int)
    (finishIn : Option Nat) :
    (lookupTask tm.tasks name = none →
      Shutdown tm name timeout finishIn = (WaitRes.ok, tm) ∧
      RemoveTask tm name timeout finishIn = (WaitRes.ok, tm)) ∧
    (∀ u : TaskUnit, lookupTask tm.tasks name = some u → u.isRun = false →
      u.counter = 0 →
      (u.scope = none ∨ ∃ s0 : Nat, u.scope = some s0 ∧ s0 ∈ tm.cancelled) →
      Shutdown tm name timeout finishIn = (WaitRes.ok, tm) ∧
      RemoveTask tm name timeout finishIn =
        (WaitRes.ok, { tm with tasks := eraseTask tm.tasks name })) := by
  constructor
  · intro hl
    constructor
    · simp only [Shutdown, hl]
    · simp only [RemoveTask, hl]
  · intro u hl hnr hc hsc
    rcases hsc with hnone | ⟨s0, hsome, hmem⟩
    · constructor
      · simp only [Shutdown, hl, hnone]
        have heta : ({ fnId := u.fnId, scope := none, counter := u.counter,
                       isRun := false } : TaskUnit) = u := by
          cases u
          simp_all
        rw [heta, setTask_self hl]
      · simp only [RemoveTask, hl, hnone]
    · have hwz : WaitGroupWithTimeout u.counter finishIn timeout = WaitRes.ok := by
        rw [hc]
        exact wait_zero finishIn timeout
      constructor
      · simp only [Shutdown, hl, hsome, hwz]
        have heta : ({ fnId := u.fnId, scope := some s0, counter := 0,
                       isRun := false } : TaskUnit) = u := by
          cases u
          simp_all
        rw [insertScope_of_mem hmem, heta, setTask_self hl]
      · simp only [RemoveTask, hl, hsome, hwz]
        rw [insertScope_of_mem hmem]

/-- Witness for the amended C8 at a registered never-started task:
Shutdown is a pure no-op; RemoveTask succeeds and deletes the entry. -/
theorem c8_noop_amended_witness :
    Shutdown tmReg "a" 5 none = (WaitRes.ok, tmReg) ∧
    RemoveTask tmReg "a" 5 none =
      (WaitRes.ok, { tmReg with tasks := eraseTask tmReg.tasks "a" }) :=
  (c8_noop_amended tmReg "a" 5 none).2
    { fnId := 0, scope := none, counter := 0, isRun := false }
    (by decide) (by decide) (by decide) (Or.inl (by decide))

/-- C10: the running flag survives the body returning on its own — the
goroutine only decrements the counters — so Run on such a task returns
success while starting nothing and RunAll skips it; only a successful
Shutdown (or ShutdownAll) clears the flag, and a timed-out Shutdown
leaves the entry untouched. -/
theorem c10_flag_cleared_only_by_success (tm : TaskManager) (name : String) (u : TaskUnit)
    (hlook : lookupTask tm.tasks name = some u)
    (hrun : u.isRun = true) :
    (∀ sid : Nat, lookupTask (bodyReturns tm sid).tasks name = some (bodyRetUnit sid u) ∧
       (bodyRetUnit sid u).isRun = true) ∧
    Run tm name = (RunRes.ok, tm) ∧
    lookupTask (RunAll tm).tasks name = some u ∧
    (∀ (t : Int) (f : Option Nat), (Shutdown tm name t f).1 = WaitRes.timedOut →
       lookupTask (Shutdown tm name t f).2.tasks name = some u) ∧
    (∀ (t : Int) (f : Option Nat), (Shutdown tm name t f).1 = WaitRes.ok →
       ∃ u2 : TaskUnit, lookupTask (Shutdown tm name t f).2.tasks name = some u2 ∧
         u2.isRun = false) ∧
    (∀ (t : Int) (f : Option Nat), (ShutdownAll tm t f).1 = WaitRes.ok →
       lookupTask (ShutdownAll tm t f).2.tasks name = some (stopUnit u) ∧
       (stopUnit u).isRun = false) := by
  refine ⟨fun sid => ⟨?_, ?_⟩, ?_, ?_, fun t f => ?_, fun t f => ?_, fun t f => ?_⟩
  · simp only [bodyReturns]
    rw [lookupTask_map, hlook]
    rfl
  · rw [bodyRetUnit_isRun]
    exact hrun
  · simp only [Run, hlook, if_pos hrun]
  · simp only [RunAll]
    exact runAllAux_lookup_running hrun tm.tasks tm.nextScope hlook
  · cases hsc : u.scope with
    | none =>
      simp only [Shutdown, hlook, hsc]
      intro h
      simp at h
    | some s2 =>
      cases hw : WaitGroupWithTimeout u.counter f t with
      | ok =>
        simp only [Shutdown, hlook, hsc, hw]
        intro h
        simp at h
      | timedOut =>
        simp only [Shutdown, hlook, hsc, hw]
        intro _
        trivial
      | hangs =>
        simp only [Shutdown, hlook, hsc, hw]
        intro h
        simp at h
  · cases hsc : u.scope with
    | none =>
      simp only [Shutdown, hlook, hsc]
      intro _
      exact ⟨{ fnId := u.fnId, scope := none, counter := u.counter, isRun := false },
             lookupTask_setTask_self _ _ _, rfl⟩
    | some s2 =>
      cases hw : WaitGroupWithTimeout u.counter f t with
      | ok =>
        simp only [Shutdown, hlook, hsc, hw]
        intro _
        exact ⟨{ fnId := u.fnId, scope := some s2, counter := 0, isRun := false },
               lookupTask_setTask_self _ _ _, rfl⟩
      | timedOut =>
        simp only [Shutdown, hlook, hsc, hw]
        intro h
        simp at h
      | hangs =>
        simp only [Shutdown, hlook, hsc, hw]
        intro h
        simp at h
  · cases hw : WaitGroupWithTimeout (parentCounter tm) f t with
    | ok =>
      simp only [ShutdownAll, hw]
      intro _
      constructor
      · simp only [stopAllUnits]
        rw [lookupTask_map, hlook]
        rfl
      · rfl
    | timedOut =>
      simp only [ShutdownAll, hw]
      intro h
      simp at h
    | hangs =>
      simp only [ShutdownAll, hw]
      intro h
      simp at h

/-- Witness for C10: after the body of task a returns on its own, the
task is still marked running, so Run is a success that changes nothing. -/
theorem c10_flag_cleared_only_by_success_witness :
    lookupTask (bodyReturns tmRunning 0).tasks "a" =
      some { fnId := 0, scope := some 0, counter := 0, isRun := true } ∧
    Run (bodyReturns tmRunning 0) "a" = (RunRes.ok, bodyReturns tmRunning 0) := by
  have h := c10_flag_cleared_only_by_success (bodyReturns tmRunning 0) "a"
    { fnId := 0, scope := some 0, counter := 0, isRun := true } (by decide) (by decide)
  refine ⟨by decide, h.2.1⟩
